import Mathlib

/-!
Verification of the ReadTheDocs documentation loader
(`libs/langchain/langchain/document_loaders/readthedocs.py`).

The HTML page tree handed to the loader by the external parser is modelled
by the inductive type `Node`: an element node carries its tag name, its
attributes (an association list from attribute name to value) and its
ordered children; the two leaf kinds are text nodes (`NavigableString`)
and comment nodes (`Comment`).  Strings are Lean `String`s; Python's
`str.strip` is modelled by `pyStrip` (drop Python's whitespace characters
on both ends), Python's float division of two string lengths by exact
division in `ℚ`.
-/

inductive Node where
  | element (name : String) (attrs : List (String × String)) (children : List Node)
  | text (s : String)
  | comment (s : String)

/-- Skip list `elements_to_skip` of `_get_clean_text` (readthedocs.py lines 101-128). -/
def elementsToSkip : List String :=
  ["script", "noscript", "canvas", "meta", "svg", "map", "area", "audio", "source",
   "track", "video", "embed", "object", "param", "picture", "iframe", "frame",
   "frameset", "noframes", "applet", "form", "button", "select", "base", "style", "img"]

/-- Block list `newline_elements` of `_get_clean_text` (readthedocs.py lines 130-145). -/
def newlineElements : List String :=
  ["p", "div", "ul", "ol", "li", "h1", "h2", "h3", "h4", "h5", "h6", "pre", "table", "tr"]

mutual

/-- The recursive extractor `process_element` inside `_get_clean_text`
(readthedocs.py lines 147-159): comments and skip-listed elements contribute
nothing (children unvisited), text nodes contribute their literal content,
`br` contributes a newline, block elements append one newline to the
concatenation of their children, all other elements are transparent. -/
def process_element : Node → String
  | .comment _ => ""
  | .text s => s
  | .element name _ children =>
      if elementsToSkip.contains name then ""
      else if name = "br" then "\n"
      else if newlineElements.contains name then processChildren children ++ "\n"
      else processChildren children

/-- Left-to-right concatenation `"".join(process_element(child) for child in el.children)`. -/
def processChildren : List Node → String
  | [] => ""
  | c :: cs => process_element c ++ processChildren cs

end

/-- The method `_get_clean_text` (readthedocs.py lines 96-162): it just runs
`process_element` on the located subtree. -/
def _get_clean_text (element : Node) : String :=
  process_element element

/-- BeautifulSoup attribute matching for `soup.find(tag, attrs)`: every required
key/value pair of the selector must be present among the element's attributes. -/
def matchesAttrs (attrs : List (String × String)) (required : List (String × String)) : Bool :=
  required.all (fun kv => attrs.lookup kv.1 == some kv.2)

mutual

/-- Depth-first `soup.find(tag, attrs)` restricted to one root: return the node
itself when it is an element with the requested tag name and all required
attributes, otherwise the first match among its descendants in document order. -/
def findNode (tag : String) (required : List (String × String)) : Node → Option Node
  | .text _ => none
  | .comment _ => none
  | .element name attrs children =>
      if name = tag ∧ matchesAttrs attrs required then some (.element name attrs children)
      else findInList tag required children

/-- Depth-first first match over a forest, in document order. -/
def findInList (tag : String) (required : List (String × String)) : List Node → Option Node
  | [] => none
  | c :: cs =>
      match findNode tag required c with
      | some n => some n
      | none => findInList tag required cs

end

/-- A selector, as stored in `html_tags` and `custom_html_tag`: a tag name plus
required attribute key/value pairs. -/
abbrev Selector : Type := String × List (String × String)

/-- The list `html_tags` built in `_clean_data` (readthedocs.py lines 170-176):
the two built-in selectors in source order, then the custom selector appended
when one was supplied at construction. -/
def htmlTags (custom : Option Selector) : List Selector :=
  [("div", [("role", "main")]), ("main", [("id", "main-content")])] ++
    (match custom with
     | some c => [c]
     | none => [])

/-- The selector loop of `_clean_data` (lines 178-185): try each selector with a
single depth-first find; break at the first that yields a match. -/
def tryTags : List Selector → List Node → Option Node
  | [], _ => none
  | sel :: rest, page =>
      match findInList sel.1 sel.2 page with
      | some n => some n
      | none => tryTags rest page

/-- The whole main-content locator of `_clean_data`: the selector list is
reversed (`html_tags[::-1]`) before the loop, so the custom selector is checked
first. A page is modelled as the list of top-level nodes of the document; every
element of the tree is a descendant of the BeautifulSoup document object, so
`soup.find` searches all of them. -/
def locate (custom : Option Selector) (page : List Node) : Option Node :=
  tryTags (htmlTags custom).reverse page

mutual

/-- BeautifulSoup's `.strings` of one node: the text leaves of the subtree in
document order. The underlying `_all_strings` filters by exact type against
`(NavigableString, CData)`, so `Comment` leaves (and other `NavigableString`
subclasses) are excluded. For an element this yields the strings of its
descendants. -/
def nodeStrings : Node → List String
  | .text s => [s]
  | .comment _ => []
  | .element _ _ children => listStrings children

/-- The string leaves of a forest, in document order. -/
def listStrings : List Node → List String
  | [] => []
  | c :: cs => nodeStrings c ++ listStrings cs

end

/-- Python's `str` whitespace test, as used by `strip()`: the characters for
which `str.isspace()` holds — ASCII whitespace `\t\n\x0b\x0c\r` and space,
the file/group/record/unit separators `\x1c`-`\x1f`, next line `\x85`, and
the Unicode space separators (`\xa0`, `\u1680`, `\u2000`-`\u200a`,
`\u2028`, `\u2029`, `\u202f`, `\u205f`, `\u3000`). -/
def isPySpace (c : Char) : Bool :=
  (0x09 ≤ c.toNat && c.toNat ≤ 0x0d) || c.toNat == 0x20 ||
    (0x1c ≤ c.toNat && c.toNat ≤ 0x1f) || c.toNat == 0x85 || c.toNat == 0xa0 ||
    c.toNat == 0x1680 || (0x2000 ≤ c.toNat && c.toNat ≤ 0x200a) ||
    c.toNat == 0x2028 || c.toNat == 0x2029 || c.toNat == 0x202f ||
    c.toNat == 0x205f || c.toNat == 0x3000

/-- Python's `s.strip()`: drop whitespace from both ends of the string. -/
def pyStrip (s : String) : String :=
  String.mk (((s.data.dropWhile isPySpace).reverse.dropWhile isPySpace).reverse)

/-- BeautifulSoup's `section.stripped_strings`: each string stripped, strings
that are whitespace-only (empty after stripping) omitted. -/
def strippedStrings (n : Node) : List String :=
  ((nodeStrings n).map pyStrip).filter (fun s => s ≠ "")

/-- The string `total_text` of `_get_link_ratio` (readthedocs.py line 84). -/
def totalText (n : Node) : String :=
  String.join (strippedStrings n)

mutual

/-- Anchors contributed by one node to `section.find_all("a")`: the node itself
when it is an `a` element, followed by the anchors among its descendants
(nested anchors are all reported), in document order. -/
def anchorsSelf : Node → List Node
  | .text _ => []
  | .comment _ => []
  | .element name attrs children =>
      if name = "a" then .element name attrs children :: anchorsInList children
      else anchorsInList children

/-- Anchors of a forest, in document order. -/
def anchorsInList : List Node → List Node
  | [] => []
  | c :: cs => anchorsSelf c ++ anchorsInList cs

end

/-- The list `links = section.find_all("a")` (readthedocs.py line 83): all anchor
elements among the descendants of the section (the section itself excluded). -/
def descendantAnchors : Node → List Node
  | .text _ => []
  | .comment _ => []
  | .element _ _ children => anchorsInList children

/-- The string `link_text` of `_get_link_ratio` (readthedocs.py lines 88-93): for
every found anchor, every non-empty string leaf below it, stripped; nested
anchors make their strings contribute once per enclosing anchor. -/
def linkText (n : Node) : String :=
  String.join ((descendantAnchors n).flatMap
    (fun link => ((nodeStrings link).filter (fun s => s ≠ "")).map pyStrip))

/-- The method `_get_link_ratio` (readthedocs.py lines 82-94): 0 when the
concatenated stripped text is empty, else the character-count quotient
`len(link_text) / len(total_text)` (Python float division modelled exactly in ℚ). -/
def _get_link_ratio (sec : Node) : ℚ :=
  if (totalText sec).length = 0 then 0
  else ((linkText sec).length : ℚ) / ((totalText sec).length : ℚ)

/-- Python's `text.split("\n")` on the character list of the string: always at
least one (possibly empty) segment; a segment boundary at every newline. -/
def splitNl : List Char → List (List Char)
  | [] => [[]]
  | c :: rest =>
      match splitNl rest with
      | [] => [[]]
      | l :: ls => if c = '\n' then [] :: l :: ls else (c :: l) :: ls

/-- Python's `"\n".join(segments)` on character lists. -/
def joinNl : List (List Char) → List Char
  | [] => []
  | [l] => l
  | l :: ls => l ++ '\n' :: joinNl ls

/-- The normalization step of `_clean_data` (readthedocs.py line 195):
`"\n".join([t for t in text.split("\n") if t])` — split on newlines, drop the
segments that are the empty string, rejoin with single newlines. -/
def trimEmptyLines (text : String) : String :=
  String.mk (joinNl ((splitNl text.data).filter (fun l => l ≠ [])))

/-- The method `_clean_data` (readthedocs.py lines 164-195) after parsing: locate
the main subtree with the reversed selector list; if one is found and the
index-page filter does not reject it, extract its clean text, else use the empty
string; finally normalize. The Python comparison `>= 0.5` is the exact rational
comparison. -/
def _clean_data (custom : Option Selector) (excludeIndexPages : Bool)
    (page : List Node) : String :=
  let found := locate custom page
  let text :=
    match found with
    | some t =>
        if excludeIndexPages ∧ _get_link_ratio t ≥ 1 / 2 then "" else _get_clean_text t
    | none => ""
  trimEmptyLines text

/-- A document record as produced by `load`: the cleaned text and the `source`
metadata entry (the file's path as a string). -/
structure Document where
  page_content : String
  source : String
deriving DecidableEq

/-- One file yielded by the directory walker `self.file_path.rglob(pattern)`: its
path, whether it is a directory, and its parsed content (parsing by the external
HTML parser is the identity in this model — files store their page tree). -/
structure Entry where
  path : String
  isDir : Bool
  content : List Node

/-- The loader configuration stored by `ReadTheDocsLoader.__init__`
(readthedocs.py lines 61-67) after a successful construction. -/
structure Loader where
  file_path : String
  custom_html_tag : Option Selector
  patterns : List String
  exclude_index_pages : Bool

/-- Construction, `ReadTheDocsLoader.__init__` (readthedocs.py lines 54-67): the
probe parse of the fixed fragment with the supplied parser options is modelled
by its outcome `probe` (`Except.error` when `BeautifulSoup(...)` raises); a
failing probe makes construction raise `ValueError` and no loader exists, a
succeeding probe stores the configuration. -/
def mkLoader (probe : Except String Unit) (path : String) (custom : Option Selector)
    (patterns : List String) (excl : Bool) : Except String Loader :=
  match probe with
  | .error _ => .error "Parsing kwargs do not appear valid"
  | .ok _ => .ok { file_path := path, custom_html_tag := custom,
                   patterns := patterns, exclude_index_pages := excl }

/-- The method `load` (readthedocs.py lines 69-80): loop over the configured
patterns; for each, loop over the walker results in order, skip directories,
clean each file's parsed content and append a document whose `source` metadata
is the file's path. The walker `self.file_path.rglob` is the external
collaborator `rglob`. -/
def load (loader : Loader) (rglob : String → List Entry) : List Document :=
  loader.patterns.foldl
    (fun docs pat =>
      (rglob pat).foldl
        (fun docs e =>
          if e.isDir then docs
          else docs ++ [{ page_content :=
                            _clean_data loader.custom_html_tag loader.exclude_index_pages
                              e.content,
                          source := e.path }])
        docs)
    []
mutual

/-- Replace the children of every `script` element of the tree by the empty
list, keeping everything else; used to state that script contents at any
nesting depth never influence the extractor's output. -/
def scrubScripts : Node → Node
  | .text s => .text s
  | .comment s => .comment s
  | .element name attrs children =>
      if name = "script" then .element name attrs []
      else .element name attrs (scrubScriptsList children)

/-- Pointwise `scrubScripts` over a forest. -/
def scrubScriptsList : List Node → List Node
  | [] => []
  | c :: cs => scrubScripts c :: scrubScriptsList cs

end

/-- Total number of characters the given string leaves contribute after
stripping: the common measure of `total_text` and `link_text`. -/
def stringsWeight (l : List String) : Nat :=
  (l.map (fun s => (pyStrip s).length)).sum

/-- The spec's example subtree where all text is wrapped in an anchor:
`<div role="main"><a href="x">All text</a></div>`. -/
def allTextDiv : Node :=
  .element "div" [("role", "main")] [.element "a" [("href", "x")] [.text "All text"]]

/-- The spec's example page whose main subtree is
`<div role="main"><p>Hello</p><p>World</p></div>`. -/
def helloPage : Node :=
  .element "html" [] [.element "body" [] [.element "div" [("role", "main")]
    [.element "p" [] [.text "Hello"], .element "p" [] [.text "World"]]]]

/-- A subtree with one anchor nested inside another: both are reported by
`find_all("a")`, so the inner text is counted twice in `link_text`. -/
def nestedAnchorDiv : Node :=
  .element "div" [] [.element "a" [] [.element "a" [] [.text "xx"]]]

theorem string_length_eq_zero_iff (s : String) : s.length = 0 ↔ s = "" := by
  constructor
  · intro h
    have hd : s.data = [] := List.length_eq_zero.mp h
    cases s
    simp_all
  · intro h
    rw [h]
    rfl

theorem locate_some (c : Selector) (page : List Node) :
    locate (some c) page =
      ((findInList c.1 c.2 page).orElse (fun _ =>
        (findInList "main" [("id", "main-content")] page).orElse (fun _ =>
          findInList "div" [("role", "main")] page))) := by
  show tryTags [c, ("main", [("id", "main-content")]), ("div", [("role", "main")])] page = _
  cases h1 : findInList c.1 c.2 page with
  | some n => simp [tryTags, h1, Option.orElse]
  | none =>
    cases h2 : findInList "main" [("id", "main-content")] page with
    | some n => simp [tryTags, h1, h2, Option.orElse]
    | none =>
      simp only [tryTags, h1, h2, Option.orElse]
      cases findInList "div" [("role", "main")] page <;> rfl

theorem locate_none (page : List Node) :
    locate none page =
      ((findInList "main" [("id", "main-content")] page).orElse (fun _ =>
        findInList "div" [("role", "main")] page)) := by
  show tryTags [("main", [("id", "main-content")]), ("div", [("role", "main")])] page = _
  cases h2 : findInList "main" [("id", "main-content")] page with
  | some n => simp [tryTags, h2, Option.orElse]
  | none =>
    simp only [tryTags, h2, Option.orElse]
    cases findInList "div" [("role", "main")] page <;> rfl

/-- C1: for every parsed page, the main-content locator tries the custom
selector first (when one was supplied at construction), then
`("main", id=main-content)`, then `("div", role=main)`; each selector is a
single depth-first find of the first element matching the tag name and all
required attribute key/value pairs; the first selector yielding a match wins,
and when no selector matches, the page's extracted text is the empty string. -/
theorem C1_locator_priority (c : Selector) (custom : Option Selector) (excl : Bool)
    (page : List Node) :
    (htmlTags custom).reverse =
        custom.toList ++ [("main", [("id", "main-content")]), ("div", [("role", "main")])]
    ∧ locate (some c) page =
        ((findInList c.1 c.2 page).orElse (fun _ =>
          (findInList "main" [("id", "main-content")] page).orElse (fun _ =>
            findInList "div" [("role", "main")] page)))
    ∧ locate none page =
        ((findInList "main" [("id", "main-content")] page).orElse (fun _ =>
          findInList "div" [("role", "main")] page))
    ∧ (∀ tag req name attrs children, findNode tag req (.element name attrs children) =
        (if name = tag ∧ matchesAttrs attrs req then some (.element name attrs children)
         else findInList tag req children))
    ∧ (locate custom page = none → _clean_data custom excl page = "") := by
  refine ⟨?_, locate_some c page, locate_none page, fun tag req name attrs children => rfl, ?_⟩
  · cases custom <;> rfl
  · intro h
    unfold _clean_data
    rw [h]
    rfl

theorem C1_witness :
    _clean_data (some ("section", [("class", "main")])) false [Node.text "plain"] = "" :=
  (C1_locator_priority ("section", [("class", "main")])
    (some ("section", [("class", "main")])) false [Node.text "plain"]).2.2.2.2 rfl

/-- C2: every element whose tag name is in the block set contributes the
concatenation of its recursively extracted children plus exactly one trailing
newline, a `br` element contributes a single newline without visiting its
children, and the whole pipeline applied to a page whose main subtree is
`<div role="main"><p>Hello</p><p>World</p></div>` yields `"Hello\n"  ++ "World"`. -/
theorem C2_block_newlines (name : String) (attrs : List (String × String))
    (children : List Node) :
    (newlineElements.contains name = true →
      process_element (.element name attrs children) = processChildren children ++ "\n")
    ∧ process_element (.element "br" attrs children) = "\n"
    ∧ _clean_data none false [helloPage] = "Hello\nWorld" := by
  refine ⟨?_, rfl, rfl⟩
  intro h
  have hm : name ∈ newlineElements := by simpa using h
  fin_cases hm <;> rfl

theorem C2_witness :
    process_element (.element "p" [] [.text "x"]) = processChildren [.text "x"] ++ "\n" :=
  (C2_block_newlines "p" [] [.text "x"]).1 rfl

mutual

theorem scrub_process (n : Node) :
    process_element (scrubScripts n) = process_element n := by
  cases n with
  | text s => rfl
  | comment s => rfl
  | element name attrs children =>
    by_cases h : name = "script"
    · subst h
      rfl
    · have hc := scrub_processChildren children
      simp only [scrubScripts, if_neg h, process_element, hc]

theorem scrub_processChildren (l : List Node) :
    processChildren (scrubScriptsList l) = processChildren l := by
  cases l with
  | nil => rfl
  | cons c cs =>
    have h1 := scrub_process c
    have h2 := scrub_processChildren cs
    simp only [scrubScriptsList, processChildren, h1, h2]

end

/-- C3: every element whose tag name is in the skip set contributes the empty
string and its children are never visited (its subtree's contribution is
independent of its children); a comment contributes the empty string and a text
node its literal content; and the extractor's output never depends on the
contents of any `script` element, at any nesting depth. -/
theorem C3_skip_elements (name : String) (attrs : List (String × String))
    (children children' : List Node) (s : String) (n : Node) :
    (elementsToSkip.contains name = true →
        process_element (.element name attrs children) = ""
        ∧ process_element (.element name attrs children)
            = process_element (.element name attrs children'))
    ∧ process_element (.comment s) = ""
    ∧ process_element (.text s) = s
    ∧ process_element (scrubScripts n) = process_element n := by
  refine ⟨?_, rfl, rfl, scrub_process n⟩
  intro h
  have he : process_element (Node.element name attrs children) = "" := by
    simp only [process_element, h, if_true]
  have he' : process_element (Node.element name attrs children') = "" := by
    simp only [process_element, h, if_true]
  exact ⟨he, he'.symm ▸ he⟩

theorem C3_witness :
    process_element (.element "script" [] [.text "secret"]) = ""
    ∧ process_element (.element "script" [] [.text "secret"])
        = process_element (.element "script" [] []) :=
  (C3_skip_elements "script" [] [.text "secret"] [] "" (.text "")).1 rfl

theorem join_foldl_length (l : List String) (acc : String) :
    (l.foldl (fun r s => r ++ s) acc).length = acc.length + (l.map String.length).sum := by
  induction l generalizing acc with
  | nil => simp
  | cons s rest ih =>
    simp only [List.foldl_cons, ih, String.length_append, List.map_cons, List.sum_cons]
    omega

theorem join_length (l : List String) :
    (String.join l).length = (l.map String.length).sum := by
  show (l.foldl (fun r s => r ++ s) "").length = _
  rw [join_foldl_length]
  simp

theorem totalText_weight (l : List String) :
    (((l.map pyStrip).filter (fun s => s ≠ "")).map String.length).sum = stringsWeight l := by
  induction l with
  | nil => rfl
  | cons s rest ih =>
    simp only [List.map_cons, stringsWeight, List.sum_cons]
    by_cases h : pyStrip s = ""
    · rw [List.filter_cons_of_neg (by simp [h])]
      rw [ih, h]
      simp [stringsWeight]
    · rw [List.filter_cons_of_pos (by simp [h])]
      simp only [List.map_cons, List.sum_cons, ih]
      rfl

theorem linkText_weight (l : List String) :
    (((l.filter (fun s => s ≠ "")).map pyStrip).map String.length).sum = stringsWeight l := by
  induction l with
  | nil => rfl
  | cons s rest ih =>
    simp only [stringsWeight, List.map_cons, List.sum_cons]
    by_cases h : s = ""
    · rw [List.filter_cons_of_neg (by simp [h])]
      rw [ih, h]
      simp [stringsWeight, pyStrip, isPySpace]
    · rw [List.filter_cons_of_pos (by simp [h])]
      simp only [List.map_cons, List.sum_cons, ih]
      rfl

theorem totalText_length (n : Node) :
    (totalText n).length = stringsWeight (nodeStrings n) := by
  rw [totalText, join_length, strippedStrings, totalText_weight]

theorem linkText_length_eq (n : Node) :
    (linkText n).length =
      ((descendantAnchors n).map (fun a => stringsWeight (nodeStrings a))).sum := by
  rw [linkText, join_length]
  induction descendantAnchors n with
  | nil => rfl
  | cons a rest ih =>
    simp only [List.flatMap_cons, List.map_append, List.sum_append, List.map_cons,
      List.sum_cons, ih, linkText_weight]

theorem stringsWeight_append (l l' : List String) :
    stringsWeight (l ++ l') = stringsWeight l + stringsWeight l' := by
  simp [stringsWeight, List.map_append, List.sum_append]

mutual

theorem anchorsSelf_weight_le (n : Node)
    (h : ∀ a ∈ anchorsSelf n, descendantAnchors a = []) :
    ((anchorsSelf n).map (fun a => stringsWeight (nodeStrings a))).sum
      ≤ stringsWeight (nodeStrings n) := by
  cases n with
  | text s => simp [anchorsSelf]
  | comment s => simp [anchorsSelf]
  | element name attrs children =>
    by_cases ha : name = "a"
    · subst ha
      have hsame : anchorsSelf (Node.element "a" attrs children) =
          Node.element "a" attrs children :: anchorsInList children := by
        simp [anchorsSelf]
      rw [hsame]
      have hd : descendantAnchors (Node.element "a" attrs children) = [] :=
        h _ (hsame ▸ List.mem_cons_self _ _)
      have hempty : anchorsInList children = [] := hd
      rw [hempty]
      simp [nodeStrings]
    · have hsame : anchorsSelf (Node.element name attrs children) =
          anchorsInList children := by
        simp [anchorsSelf, ha]
      rw [hsame]
      have hlist := anchorsInList_weight_le children (fun a hm => h a (hsame ▸ hm))
      simpa [nodeStrings] using hlist

theorem anchorsInList_weight_le (l : List Node)
    (h : ∀ a ∈ anchorsInList l, descendantAnchors a = []) :
    ((anchorsInList l).map (fun a => stringsWeight (nodeStrings a))).sum
      ≤ stringsWeight (listStrings l) := by
  cases l with
  | nil => simp [anchorsInList, listStrings, stringsWeight]
  | cons c cs =>
    have hc := anchorsSelf_weight_le c
      (fun a hm => h a (by simp [anchorsInList, hm]))
    have hcs := anchorsInList_weight_le cs
      (fun a hm => h a (by simp [anchorsInList, hm]))
    calc ((anchorsInList (c :: cs)).map (fun a => stringsWeight (nodeStrings a))).sum
        = ((anchorsSelf c).map (fun a => stringsWeight (nodeStrings a))).sum
          + ((anchorsInList cs).map (fun a => stringsWeight (nodeStrings a))).sum := by
          simp [anchorsInList, List.map_append, List.sum_append]
      _ ≤ stringsWeight (nodeStrings c) + stringsWeight (listStrings cs) :=
          Nat.add_le_add hc hcs
      _ = stringsWeight (listStrings (c :: cs)) := by
          simp [listStrings, stringsWeight_append]

end

theorem link_le_total (n : Node)
    (h : ∀ a ∈ descendantAnchors n, descendantAnchors a = []) :
    (linkText n).length ≤ (totalText n).length := by
  rw [linkText_length_eq, totalText_length]
  cases n with
  | text s => simp [descendantAnchors]
  | comment s => simp [descendantAnchors]
  | element name attrs children =>
    have := anchorsInList_weight_le children
      (fun a hm => h a (by simpa [descendantAnchors] using hm))
    simpa [descendantAnchors, nodeStrings] using this

theorem ratio_ge_half_iff (n : Node) :
    _get_link_ratio n ≥ 1 / 2 ↔
      (totalText n).length ≠ 0 ∧ (totalText n).length ≤ 2 * (linkText n).length := by
  unfold _get_link_ratio
  rcases Nat.eq_zero_or_pos (totalText n).length with h | h
  · simp [h]
  · have h0 : (totalText n).length ≠ 0 := Nat.pos_iff_ne_zero.mp h
    simp only [h0, if_false, ne_eq, not_false_eq_true, true_and]
    rw [ge_iff_le, div_le_div_iff₀ (by norm_num) (by exact_mod_cast h)]
    constructor
    · intro hle
      have : ((totalText n).length : ℚ) ≤ 2 * (linkText n).length := by linarith
      exact_mod_cast this
    · intro hle
      have : ((totalText n).length : ℚ) ≤ 2 * (linkText n).length := by exact_mod_cast hle
      linarith

/-- C4 counterexample: on a subtree with one anchor nested inside another
(`<div><a><a>xx</a></a></div>`) the inner text is counted once per enclosing
anchor, so the returned ratio is `4/2 = 2`, outside the claimed interval
`[0, 1]`. -/
theorem C4_counterexample :
    _get_link_ratio nestedAnchorDiv = 2 ∧ ¬ _get_link_ratio nestedAnchorDiv ≤ 1 := by
  have h1 : (linkText nestedAnchorDiv).length = 4 := rfl
  have h2 : (totalText nestedAnchorDiv).length = 2 := rfl
  have he : _get_link_ratio nestedAnchorDiv = 2 := by
    unfold _get_link_ratio
    rw [h1, h2]
    norm_num
  exact ⟨he, by rw [he]; norm_num⟩

/-- C4 (amended): the link-ratio function returns
`len(linkText) / len(totalText)` in characters of the concatenated stripped
strings; the value is 0 when `totalText` is empty and is always nonnegative,
and it lies in `[0, 1]` whenever no anchor of the subtree has another anchor
among its descendants (text under nested anchors is counted once per enclosing
anchor and can push the ratio above 1). -/
theorem C4_link_ratio (n : Node) :
    0 ≤ _get_link_ratio n
    ∧ (totalText n = "" → _get_link_ratio n = 0)
    ∧ (totalText n ≠ "" →
        _get_link_ratio n = ((linkText n).length : ℚ) / ((totalText n).length : ℚ))
    ∧ ((∀ a ∈ descendantAnchors n, (descendantAnchors a).isEmpty = true) →
        _get_link_ratio n ≤ 1) := by
  refine ⟨?_, ?_, ?_, ?_⟩
  · unfold _get_link_ratio
    split
    · exact le_refl 0
    · positivity
  · intro h
    unfold _get_link_ratio
    rw [if_pos ((string_length_eq_zero_iff (totalText n)).mpr h)]
  · intro h
    unfold _get_link_ratio
    rw [if_neg (fun hz => h ((string_length_eq_zero_iff (totalText n)).mp hz))]
  · intro h
    have h' : ∀ a ∈ descendantAnchors n, descendantAnchors a = [] := by
      intro a hm
      exact List.isEmpty_iff.mp (h a hm)
    have hle := link_le_total n h'
    unfold _get_link_ratio
    split
    · norm_num
    · next hz =>
      rw [div_le_one (by positivity)]
      exact_mod_cast hle

theorem C4_witness :
    _get_link_ratio (Node.text "") = 0
    ∧ _get_link_ratio allTextDiv
        = ((linkText allTextDiv).length : ℚ) / ((totalText allTextDiv).length : ℚ)
    ∧ _get_link_ratio allTextDiv ≤ 1 :=
  ⟨(C4_link_ratio (Node.text "")).2.1 rfl,
   (C4_link_ratio allTextDiv).2.2.1 (by decide),
   (C4_link_ratio allTextDiv).2.2.2 (by decide)⟩

/-- C5: when a main subtree is located and the index-page filter is enabled,
a link ratio at or above one half makes the page's extracted text empty; with
the filter disabled the same page yields the normally extracted (and
normalized) text. On the spec's all-anchors example the ratio is exactly 1, so
the output is empty with the filter on and `"All text"` with it off. -/
theorem C5_index_filter (custom : Option Selector) (page : List Node) (t : Node) :
    (locate custom page = some t → _get_link_ratio t ≥ 1 / 2 →
        _clean_data custom true page = "")
    ∧ (locate custom page = some t →
        _clean_data custom false page = trimEmptyLines (process_element t))
    ∧ _get_link_ratio allTextDiv = 1
    ∧ _clean_data none true [allTextDiv] = ""
    ∧ _clean_data none false [allTextDiv] = "All text" := by
  have hra : _get_link_ratio allTextDiv ≥ 1 / 2 := (ratio_ge_half_iff allTextDiv).mpr (by decide)
  have hon : ∀ (cu : Option Selector) (pg : List Node) (u : Node), locate cu pg = some u →
      _get_link_ratio u ≥ 1 / 2 → _clean_data cu true pg = "" := by
    intro cu pg u hl hr
    unfold _clean_data
    rw [hl]
    show trimEmptyLines (if true = true ∧ _get_link_ratio u ≥ 1 / 2 then ""
      else _get_clean_text u) = ""
    rw [if_pos ⟨rfl, hr⟩]
    rfl
  refine ⟨hon custom page t, ?_, ?_, hon none [allTextDiv] allTextDiv rfl hra, rfl⟩
  · intro hl
    unfold _clean_data
    rw [hl]
    show trimEmptyLines (if false = true ∧ _get_link_ratio t ≥ 1 / 2 then ""
      else _get_clean_text t) = _
    rw [if_neg (fun hc => Bool.false_ne_true hc.1)]
    rfl
  · have h1 : (linkText allTextDiv).length = 8 := rfl
    have h2 : (totalText allTextDiv).length = 8 := rfl
    unfold _get_link_ratio
    rw [h1, h2]
    norm_num

theorem C5_witness :
    _clean_data none true [allTextDiv] = ""
    ∧ _clean_data none false [allTextDiv] = trimEmptyLines (process_element allTextDiv) :=
  ⟨(C5_index_filter none [allTextDiv] allTextDiv).1 rfl
      ((ratio_ge_half_iff allTextDiv).mpr (by decide)),
   (C5_index_filter none [allTextDiv] allTextDiv).2.1 rfl⟩

theorem splitNl_ne_nil (cs : List Char) : splitNl cs ≠ [] := by
  cases cs with
  | nil => simp [splitNl]
  | cons c rest =>
    unfold splitNl
    cases h : splitNl rest with
    | nil => simp
    | cons l ls =>
      by_cases hc : c = '\n' <;> simp [hc]

theorem splitNl_cons_nl (c : Char) (rest : List Char) (l0 : List Char)
    (ls : List (List Char)) (h : splitNl rest = l0 :: ls) (hc : c = '\n') :
    splitNl (c :: rest) = [] :: l0 :: ls := by
  rw [splitNl, h]
  simp only [hc, if_true]

theorem splitNl_cons_ch (c : Char) (rest : List Char) (l0 : List Char)
    (ls : List (List Char)) (h : splitNl rest = l0 :: ls) (hc : ¬ c = '\n') :
    splitNl (c :: rest) = (c :: l0) :: ls := by
  rw [splitNl, h]
  simp only [hc, if_false]

theorem mem_splitNl_no_newline (cs : List Char) :
    ∀ l ∈ splitNl cs, '\n' ∉ l := by
  induction cs with
  | nil =>
    intro l hl
    simp [splitNl] at hl
    simp [hl]
  | cons c rest ih =>
    intro l hl
    cases h : splitNl rest with
    | nil => exact absurd h (splitNl_ne_nil rest)
    | cons l0 ls =>
      by_cases hc : c = '\n'
      · rw [splitNl_cons_nl c rest l0 ls h hc] at hl
        rcases List.mem_cons.mp hl with h1 | h1
        · simp [h1]
        · exact ih l (h ▸ h1)
      · rw [splitNl_cons_ch c rest l0 ls h hc] at hl
        rcases List.mem_cons.mp hl with h1 | h1
        · subst h1
          intro hmem
          rcases List.mem_cons.mp hmem with h2 | h2
          · exact hc h2.symm
          · exact ih l0 (h ▸ List.mem_cons_self l0 ls) h2
        · exact ih l (h ▸ List.mem_cons.mpr (Or.inr h1))

theorem splitNl_of_no_newline (l : List Char) (h : '\n' ∉ l) : splitNl l = [l] := by
  induction l with
  | nil => rfl
  | cons c cs ih =>
    have hc : c ≠ '\n' := fun hh => h (hh ▸ List.mem_cons_self c cs)
    have hcs : '\n' ∉ cs := fun hh => h (List.mem_cons.mpr (Or.inr hh))
    exact splitNl_cons_ch c cs cs [] (ih hcs) hc

theorem splitNl_append_newline (l rest : List Char) (h : '\n' ∉ l) :
    splitNl (l ++ '\n' :: rest) = l :: splitNl rest := by
  induction l with
  | nil =>
    show splitNl ('\n' :: rest) = [] :: splitNl rest
    cases hr : splitNl rest with
    | nil => exact absurd hr (splitNl_ne_nil rest)
    | cons l0 ls => exact splitNl_cons_nl '\n' rest l0 ls hr rfl
  | cons c cs ih =>
    have hc : c ≠ '\n' := fun hh => h (hh ▸ List.mem_cons_self c cs)
    have hcs : '\n' ∉ cs := fun hh => h (List.mem_cons.mpr (Or.inr hh))
    show splitNl (c :: (cs ++ '\n' :: rest)) = (c :: cs) :: splitNl rest
    exact splitNl_cons_ch c (cs ++ '\n' :: rest) cs (splitNl rest) (ih hcs) hc

theorem splitNl_joinNl (ls : List (List Char)) (hne : ls ≠ [])
    (h : ∀ l ∈ ls, '\n' ∉ l) : splitNl (joinNl ls) = ls := by
  induction ls with
  | nil => exact absurd rfl hne
  | cons l rest ih =>
    cases rest with
    | nil =>
      show splitNl (joinNl [l]) = [l]
      exact splitNl_of_no_newline l (h l (List.mem_cons_self l []))
    | cons l' rest' =>
      show splitNl (l ++ '\n' :: joinNl (l' :: rest')) = l :: l' :: rest'
      rw [splitNl_append_newline _ _ (h l (List.mem_cons_self _ _))]
      rw [ih (by simp) (fun x hx => h x (List.mem_cons.mpr (Or.inr hx)))]

theorem joinNl_ne_nil (ls : List (List Char)) (hne : ls ≠ [])
    (h : ∀ l ∈ ls, l ≠ []) : joinNl ls ≠ [] := by
  cases ls with
  | nil => exact absurd rfl hne
  | cons l rest =>
    cases rest with
    | nil => exact h l (List.mem_cons_self _ _)
    | cons l' rest' =>
      show l ++ '\n' :: joinNl (l' :: rest') ≠ []
      simp

theorem joinNl_getLast (ls : List (List Char))
    (h : ∀ l ∈ ls, l ≠ [] ∧ '\n' ∉ l) : (joinNl ls).getLast? ≠ some '\n' := by
  induction ls with
  | nil => simp [joinNl]
  | cons l rest ih =>
    cases rest with
    | nil =>
      show (joinNl [l]).getLast? ≠ some '\n'
      intro hlast
      have hmem : '\n' ∈ l := List.mem_of_mem_getLast? (show '\n' ∈ l.getLast? from hlast)
      exact (h l (List.mem_cons_self _ _)).2 hmem
    | cons l' rest' =>
      have hjoin : joinNl (l :: l' :: rest') = l ++ '\n' :: joinNl (l' :: rest') := rfl
      have hne : joinNl (l' :: rest') ≠ [] :=
        joinNl_ne_nil _ (by simp) (fun x hx => (h x (List.mem_cons.mpr (Or.inr hx))).1)
      rw [hjoin, List.getLast?_append_of_ne_nil l (by simp)]
      have hcons : ('\n' :: joinNl (l' :: rest')).getLast? = (joinNl (l' :: rest')).getLast? := by
        rw [show ('\n' :: joinNl (l' :: rest')) = ['\n'] ++ joinNl (l' :: rest') from rfl]
        exact List.getLast?_append_of_ne_nil ['\n'] hne
      rw [hcons]
      exact ih (fun x hx => h x (List.mem_cons.mpr (Or.inr hx)))

/-- C6: normalization splits the extracted string on newline characters, drops
exactly the segments equal to the empty string (whitespace-only segments
survive, as in `"a\n \n\nb\n"`), and rejoins the survivors with single
newlines: when any segment survives, the lines of the result are exactly the
non-empty segments of the input, and the result never ends in a newline. -/
theorem C6_normalize_lines (s : String) :
    (trimEmptyLines s).data = joinNl ((splitNl s.data).filter (fun l => l ≠ []))
    ∧ ((splitNl s.data).filter (fun l => l ≠ []) = [] → trimEmptyLines s = "")
    ∧ ((splitNl s.data).filter (fun l => l ≠ []) ≠ [] →
        splitNl (trimEmptyLines s).data = (splitNl s.data).filter (fun l => l ≠ []))
    ∧ (trimEmptyLines s ≠ "" → (trimEmptyLines s).data.getLast? ≠ some '\n')
    ∧ trimEmptyLines "a\n \n\nb\n" = "a\n \nb" := by
  have hmem : ∀ l ∈ (splitNl s.data).filter (fun l => l ≠ []), l ≠ [] ∧ '\n' ∉ l := by
    intro l hl
    have h1 := List.mem_filter.mp hl
    refine ⟨by simpa using h1.2, mem_splitNl_no_newline s.data l h1.1⟩
  refine ⟨rfl, ?_, ?_, ?_, rfl⟩
  · intro h
    unfold trimEmptyLines
    rw [h]
    rfl
  · intro h
    show splitNl (joinNl ((splitNl s.data).filter (fun l => l ≠ []))) = _
    exact splitNl_joinNl _ h (fun l hl => (hmem l hl).2)
  · intro h
    have hne : (splitNl s.data).filter (fun l => l ≠ []) ≠ [] := by
      intro hz
      apply h
      unfold trimEmptyLines
      rw [hz]
      rfl
    show (joinNl ((splitNl s.data).filter (fun l => l ≠ []))).getLast? ≠ some '\n'
    exact joinNl_getLast _ hmem

theorem C6_witness :
    splitNl (trimEmptyLines "a\n\nb").data
        = (splitNl ("a\n\nb" : String).data).filter (fun l => l ≠ [])
    ∧ (trimEmptyLines "a\n\nb").data.getLast? ≠ some '\n' :=
  ⟨(C6_normalize_lines "a\n\nb").2.2.1 (by decide),
   (C6_normalize_lines "a\n\nb").2.2.2.1 (by decide)⟩

/-- C7: normalization is idempotent — applying the split/drop-empty/rejoin
step to an already-normalized string returns it unchanged. -/
theorem C7_normalize_idempotent (s : String) :
    trimEmptyLines (trimEmptyLines s) = trimEmptyLines s := by
  have hmem : ∀ l ∈ (splitNl s.data).filter (fun l => l ≠ []), l ≠ [] ∧ '\n' ∉ l := by
    intro l hl
    have h1 := List.mem_filter.mp hl
    refine ⟨by simpa using h1.2, mem_splitNl_no_newline s.data l h1.1⟩
  cases hz : (splitNl s.data).filter (fun l => l ≠ []) with
  | nil =>
    have h1 : trimEmptyLines s = "" := by
      unfold trimEmptyLines
      rw [hz]
      rfl
    rw [h1]
    rfl
  | cons l0 ls =>
    have hfl : (splitNl s.data).filter (fun l => l ≠ []) ≠ [] := by rw [hz]; simp
    have hdata : (trimEmptyLines s).data
        = joinNl ((splitNl s.data).filter (fun l => l ≠ [])) := rfl
    show String.mk (joinNl ((splitNl (trimEmptyLines s).data).filter (fun l => l ≠ [])))
        = trimEmptyLines s
    rw [hdata, splitNl_joinNl _ hfl (fun l hl => (hmem l hl).2)]
    rw [List.filter_eq_self.mpr (fun l hl => by simpa using (hmem l hl).1)]
    rfl

/-- C8 counterexample: the tag name `br` belongs to neither static list, yet it
is not treated as transparent — a `br` element contributes a newline and its
children are not visited, whereas a transparent element would contribute its
children's concatenation (`"x"` here). -/
theorem C8_counterexample :
    elementsToSkip.contains "br" = false
    ∧ newlineElements.contains "br" = false
    ∧ process_element (.element "br" [] [.text "x"]) = "\n"
    ∧ process_element (.element "br" [] [.text "x"]) ≠ processChildren [.text "x"] := by
  refine ⟨rfl, rfl, rfl, ?_⟩
  decide

/-- C8 (amended): the static skip-list and the static block-list are disjoint,
and every element name belonging to neither list — except the line-break name
`br`, which belongs to neither list but contributes a single newline without
visiting its children — is treated as transparent: its children are visited
and concatenated and it contributes no delimiter of its own. -/
theorem C8_disjoint_transparent (name : String) (attrs : List (String × String))
    (children : List Node) :
    (∀ x ∈ elementsToSkip, x ∉ newlineElements)
    ∧ (elementsToSkip.contains name = false → newlineElements.contains name = false →
        name ≠ "br" →
        process_element (.element name attrs children) = processChildren children) := by
  refine ⟨by decide, ?_⟩
  intro h1 h2 h3
  simp only [process_element, h1, h2, h3, Bool.false_eq_true, if_false, ite_false]

theorem C8_witness :
    process_element (.element "span" [] [.text "x"]) = processChildren [.text "x"] :=
  (C8_disjoint_transparent "span" [] [.text "x"]).2 rfl rfl (by decide)

/-- C9: loader construction runs a validation probe (parsing a trivial fixed
HTML fragment with the supplied parser options, modelled by the probe's
outcome); construction succeeds exactly when the probe parse succeeds, and a
failing probe (including any unsupported or invalid parser option, which makes
the probe raise) produces the configuration error and no loader — hence no
file is ever read through it. -/
theorem C9_construction (probe : Except String Unit) (path : String)
    (custom : Option Selector) (patterns : List String) (excl : Bool) :
    ((∃ l, mkLoader probe path custom patterns excl = .ok l) ↔ probe.isOk = true)
    ∧ (probe.isOk = false →
        mkLoader probe path custom patterns excl = .error "Parsing kwargs do not appear valid") := by
  cases probe with
  | error e =>
    refine ⟨⟨?_, ?_⟩, fun _ => rfl⟩
    · rintro ⟨l, hl⟩
      exact absurd hl (by simp [mkLoader])
    · intro h
      exact absurd h (by simp [Except.isOk, Except.toBool])
  | ok u =>
    refine ⟨⟨fun _ => rfl, fun _ => ⟨_, rfl⟩⟩, fun h => ?_⟩
    exact absurd h (by simp [Except.isOk, Except.toBool])

theorem C9_witness :
    mkLoader (.error "no such parser feature") "docs" none ["*.html"] false
      = .error "Parsing kwargs do not appear valid" :=
  (C9_construction (.error "no such parser feature") "docs" none ["*.html"] false).2 rfl

theorem load_inner_foldl (custom : Option Selector) (excl : Bool)
    (entries : List Entry) (docs : List Document) :
    entries.foldl
      (fun ds e =>
        if e.isDir then ds
        else ds ++ [{ page_content := _clean_data custom excl e.content,
                      source := e.path }])
      docs
    = docs ++ (entries.filter (fun e => !e.isDir)).map
        (fun e => { page_content := _clean_data custom excl e.content,
                    source := e.path }) := by
  induction entries generalizing docs with
  | nil => simp
  | cons e rest ih =>
    by_cases h : e.isDir
    · simp [List.foldl_cons, h, ih, List.filter_cons]
    · simp [List.foldl_cons, h, ih, List.filter_cons]

theorem load_outer_foldl (loader : Loader) (rglob : String → List Entry)
    (pats : List String) (docs : List Document) :
    pats.foldl
      (fun ds pat =>
        (rglob pat).foldl
          (fun ds e =>
            if e.isDir then ds
            else ds ++ [{ page_content :=
                            _clean_data loader.custom_html_tag loader.exclude_index_pages
                              e.content,
                          source := e.path }])
          ds)
      docs
    = docs ++ pats.flatMap (fun pat =>
        ((rglob pat).filter (fun e => !e.isDir)).map
          (fun e => { page_content :=
                        _clean_data loader.custom_html_tag loader.exclude_index_pages
                          e.content,
                      source := e.path })) := by
  induction pats generalizing docs with
  | nil => simp
  | cons p rest ih =>
    rw [List.foldl_cons, ih, load_inner_foldl]
    simp [List.flatMap_cons, List.append_assoc]

/-- C10: `load` emits exactly one document per (pattern, matched non-directory
file) pair — the non-directory entries of each pattern's walker results, in
walker order, mapped to documents whose `source` metadata is the file's path —
grouped pattern-major in the order the patterns are configured; a file matched
by two patterns is hence emitted once per matching pattern, as the concrete
two-pattern instance shows. -/
theorem C10_load_documents (loader : Loader) (rglob : String → List Entry) :
    load loader rglob
      = loader.patterns.flatMap (fun pat =>
          ((rglob pat).filter (fun e => !e.isDir)).map
            (fun e => { page_content :=
                          _clean_data loader.custom_html_tag loader.exclude_index_pages
                            e.content,
                        source := e.path }))
    ∧ load { file_path := "root", custom_html_tag := none, patterns := ["*.htm", "*.html"],
             exclude_index_pages := false }
        (fun _ => [{ path := "idx.html", isDir := false, content := [] }])
      = [{ page_content := "", source := "idx.html" },
         { page_content := "", source := "idx.html" }] := by
  constructor
  · show loader.patterns.foldl _ [] = _
    rw [load_outer_foldl]
    rfl
  · rfl
